import Mathlib

/-!
Shallow embedding of the FundFinder backtesting core
(`src/modules/backtester.py` and `src/modules/data_processor.py`).

Conventions of the embedding:
* pandas `NaN` / missing values are modelled as `none : Option ℚ`;
  a comparison against a missing value is `false`, as in Python, where
  every comparison with `NaN` evaluates to `False`.
* dates are integers (days since 1970-01-01), so Python's
  `(d2 - d1).days` is plain integer subtraction and the cutoff
  `datetime(2016, 1, 1)` is the day number 16801.
* a Python expression that can raise (`x / 0` raises `ZeroDivisionError`)
  is modelled as an `Option` value, `none` standing for the raised error.
* `np.power` on floats is abstracted as an opaque-to-the-theorems function
  parameter `pf : ℚ → ℚ → ℚ`; every statement about `annual_return` is
  about where and whether `pf` is applied, which is all the source's
  control flow determines.
-/

namespace FundFinder

/-- Strategy mode: `"fundamental"` (估值百分位 / valuation percentile) or
`"bollinger"` (布林线位置 / Bollinger position), `backtester.py` lines 76-116. -/
inductive Mode where
  | fundamental : Mode
  | bollinger : Mode
deriving DecidableEq, Repr

/-- Direction of a trade-log entry, `backtester.py` lines 178, 218, 256. -/
inductive Direction where
  | buy : Direction
  | stop_loss_sell : Direction
  | take_profit_sell : Direction
  | force_sell : Direction
deriving DecidableEq, Repr

/-- One raw bar of the input dataframe.  Columns used by the backtester:
`日期` (date), `开盘价` (open), `收盘价` (close), `估值百分位` (valuation
percentile), `布林线位置` (Bollinger position).  The two indicator columns
may be missing (`NaN`). -/
structure Bar where
  date : ℤ
  openPrice : ℚ
  closePrice : ℚ
  val : Option ℚ
  boll : Option ℚ
deriving DecidableEq, Repr

/-- One row of `df_test` after the shifted helper columns are added
(`backtester.py` lines 131-136): `prev_估值百分位 = 估值百分位.shift(1)`,
`prev_布林线位置 = 布林线位置.shift(1)`, `next_开盘价 = 开盘价.shift(-1)`. -/
structure Row where
  date : ℤ
  openPrice : ℚ
  closePrice : ℚ
  val : Option ℚ
  boll : Option ℚ
  prev_val : Option ℚ
  prev_boll : Option ℚ
  next_open : Option ℚ
deriving DecidableEq, Repr

/-- Build the shifted rows from a bar list: `prev_*` carry the previous
bar's indicator (missing at the first row), `next_open` carries the next
bar's open (missing at the last row), exactly as the three `shift` calls. -/
def mkRows : Option ℚ → Option ℚ → List Bar → List Row
  | _, _, [] => []
  | pv, pb, b :: rest =>
      { date := b.date, openPrice := b.openPrice, closePrice := b.closePrice,
        val := b.val, boll := b.boll, prev_val := pv, prev_boll := pb,
        next_open := (rest.head?).map Bar.openPrice } :: mkRows b.val b.boll rest

/-- A strategy dictionary: configuration (lines 75-117) plus the mutable
state initialised at lines 120-129 of `backtester.py`. -/
structure Strategy where
  buy_threshold : ℚ
  sell_threshold : ℚ
  name : String
  mode : Mode
  position : Bool
  position_date : Option ℤ
  buy_price : ℚ
  capital : ℚ
  shares : ℚ
  total_holding_days : ℤ
  total_return : ℚ
  date_start : Option ℤ
  date_end : Option ℤ
deriving DecidableEq, Repr

/-- A trade-log entry (`backtester.py` lines 175-182, 215-222, 253-260).
The source stores the date as a formatted string; we keep the day number. -/
structure TradeEvent where
  date : ℤ
  strategy_name : String
  direction : Direction
  amount : ℚ
  price : ℚ
  cash : ℚ
deriving DecidableEq, Repr

/-- A strategy's freshly initialised dictionary entry (lines 120-129). -/
def mkStrategy (b s : ℚ) (n : String) (m : Mode) : Strategy :=
  { buy_threshold := b, sell_threshold := s, name := n, mode := m,
    position := false, position_date := none, buy_price := 0,
    capital := 100000, shares := 0, total_holding_days := 0,
    total_return := 0, date_start := none, date_end := none }

/-- The fixed bank of 32 strategies of `backtester.py` lines 75-117
(the commented-out 50/55-threshold entries are absent from the source's
live list and hence absent here). -/
def initStrategies : List Strategy :=
  [ mkStrategy (10/100) (40/100) "10-40估值线" Mode.fundamental,
    mkStrategy (10/100) (50/100) "10-50估值线" Mode.fundamental,
    mkStrategy (15/100) (45/100) "15-45估值线" Mode.fundamental,
    mkStrategy (15/100) (55/100) "15-55估值线" Mode.fundamental,
    mkStrategy (20/100) (50/100) "20-50估值线" Mode.fundamental,
    mkStrategy (20/100) (60/100) "20-60估值线" Mode.fundamental,
    mkStrategy (25/100) (55/100) "25-55估值线" Mode.fundamental,
    mkStrategy (25/100) (65/100) "25-65估值线" Mode.fundamental,
    mkStrategy (30/100) (60/100) "30-60估值线" Mode.fundamental,
    mkStrategy (30/100) (70/100) "30-70估值线" Mode.fundamental,
    mkStrategy (35/100) (65/100) "35-65估值线" Mode.fundamental,
    mkStrategy (35/100) (75/100) "35-75估值线" Mode.fundamental,
    mkStrategy (40/100) (70/100) "40-70估值线" Mode.fundamental,
    mkStrategy (40/100) (80/100) "40-80估值线" Mode.fundamental,
    mkStrategy (45/100) (75/100) "45-75估值线" Mode.fundamental,
    mkStrategy (45/100) (85/100) "45-85估值线" Mode.fundamental,
    mkStrategy (10/100) (40/100) "10-40布林线" Mode.bollinger,
    mkStrategy (10/100) (50/100) "10-50布林线" Mode.bollinger,
    mkStrategy (15/100) (45/100) "15-45布林线" Mode.bollinger,
    mkStrategy (15/100) (55/100) "15-55布林线" Mode.bollinger,
    mkStrategy (20/100) (50/100) "20-50布林线" Mode.bollinger,
    mkStrategy (20/100) (60/100) "20-60布林线" Mode.bollinger,
    mkStrategy (25/100) (55/100) "25-55布林线" Mode.bollinger,
    mkStrategy (25/100) (65/100) "25-65布林线" Mode.bollinger,
    mkStrategy (30/100) (60/100) "30-60布林线" Mode.bollinger,
    mkStrategy (30/100) (70/100) "30-70布林线" Mode.bollinger,
    mkStrategy (35/100) (65/100) "35-65布林线" Mode.bollinger,
    mkStrategy (35/100) (75/100) "35-75布林线" Mode.bollinger,
    mkStrategy (40/100) (70/100) "40-70布林线" Mode.bollinger,
    mkStrategy (40/100) (80/100) "40-80布林线" Mode.bollinger,
    mkStrategy (45/100) (75/100) "45-75布林线" Mode.bollinger,
    mkStrategy (45/100) (85/100) "45-85布林线" Mode.bollinger ]

/-- The crossing predicate `prev_value < threshold <= curr_value`
(`backtester.py` lines 161-166, 197, 200). -/
def crossed_up (prev_value curr_value threshold : ℚ) : Bool :=
  decide (prev_value < threshold) && decide (threshold ≤ curr_value)

/-- The same chained comparison evaluated on possibly-missing operands:
in Python any comparison with `NaN` is `False`, so the chain is `False`
whenever either indicator value is missing. -/
def optCross (prev curr : Option ℚ) (threshold : ℚ) : Bool :=
  match prev, curr with
  | some p, some c => crossed_up p c threshold
  | _, _ => false

/-- Lines 154-156 of `backtester.py`: `date_start` is set on a strategy's
first evaluated day, `date_end` on every evaluated day. -/
def withDates (date : ℤ) (s : Strategy) : Strategy :=
  { s with date_start := some (s.date_start.getD date), date_end := some date }

/-- The `buy_signal` expression for the two modes, `backtester.py` lines 159-166. -/
def buySignal (s : Strategy) (prev_val curr_val prev_boll curr_boll : Option ℚ) : Bool :=
  match s.mode with
  | Mode.fundamental => !s.position && optCross prev_val curr_val s.buy_threshold
  | Mode.bollinger => !s.position && optCross prev_boll curr_boll s.buy_threshold

/-- The `current_return` expression with its zero-entry-price guard, line 189. -/
def currentReturn (s : Strategy) (nop : ℚ) : ℚ :=
  if s.buy_price ≠ 0 then (nop - s.buy_price) / s.buy_price else 0

/-- The `stop_loss` condition, line 192: drop of 15% or more versus the entry price. -/
def stopLossSignal (s : Strategy) (nop : ℚ) : Bool :=
  decide (currentReturn s nop ≤ -(15/100 : ℚ))

/-- The `take_profit` condition for the two modes, lines 195-200. -/
def takeProfitSignal (s : Strategy) (prev_val curr_val prev_boll curr_boll : Option ℚ) : Bool :=
  match s.mode with
  | Mode.fundamental => optCross prev_val curr_val s.sell_threshold
  | Mode.bollinger => optCross prev_boll curr_boll s.sell_threshold

/-- One strategy's update for one evaluated day, `backtester.py`
lines 153-231.  Returns the new strategy dictionary and the log entries
appended during this step (`[]`, one buy, or one sell).
`prev_val`/`curr_val` are 前一日/当日估值百分位, `prev_boll`/`curr_boll`
the Bollinger positions, `nop` the (non-missing) next-day open. -/
def stepStrategy (date : ℤ) (nop : ℚ) (prev_val curr_val prev_boll curr_boll : Option ℚ)
    (s : Strategy) : Strategy × List TradeEvent :=
  let s0 : Strategy := withDates date s
  if buySignal s0 prev_val curr_val prev_boll curr_boll then
    ({ s0 with position := true, position_date := some date,
               buy_price := nop, shares := s0.capital / nop },
     [{ date := date, strategy_name := s0.name, direction := Direction.buy,
        amount := s0.capital, price := nop, cash := s0.capital }])
  else if s0.position && decide (0 < s0.capital) then
    if stopLossSignal s0 nop || takeProfitSignal s0 prev_val curr_val prev_boll curr_boll then
      -- `position_date` is always `some` while `position` is true; the
      -- `getD` default is never reached on states produced by the machine.
      let holding_days : ℤ := date - s0.position_date.getD date
      let sell_capital : ℚ := s0.shares * nop
      let dir : Direction :=
        if stopLossSignal s0 nop then Direction.stop_loss_sell
        else Direction.take_profit_sell
      ({ s0 with position := false, position_date := none, buy_price := 0,
                 shares := 0, capital := sell_capital,
                 total_holding_days := s0.total_holding_days + holding_days },
       [{ date := date, strategy_name := s0.name, direction := dir,
          amount := sell_capital, price := nop, cash := sell_capital }])
    else (s0, [])
  else (s0, [])

/-- Forced liquidation of one still-long strategy after the loop,
`backtester.py` lines 234-268.  `last` is `df_test.iloc[-1]`. -/
def forceSell (last : Row) (s : Strategy) : Strategy × List TradeEvent :=
  if s.position then
    let sell_price : ℚ :=
      match last.next_open with
      | some p => p
      | none => last.closePrice
    let sell_capital : ℚ := s.shares * sell_price
    let holding_days : ℤ := last.date - s.position_date.getD last.date
    ({ s with position := false, position_date := none, buy_price := 0,
              shares := 0, capital := sell_capital,
              total_holding_days := s.total_holding_days + holding_days },
     [{ date := last.date, strategy_name := s.name, direction := Direction.force_sell,
        amount := sell_capital, price := sell_price, cash := sell_capital }])
  else (s, [])

/-- Apply a per-strategy update to every strategy in order, appending each
strategy's log entries to the shared log in strategy order — the shape of
both the inner `for strategy in strategies` loop and the liquidation loop. -/
def stepAll (f : Strategy → Strategy × List TradeEvent)
    (acc : List Strategy × List TradeEvent) : List Strategy × List TradeEvent :=
  (acc.1.map (fun s => (f s).1),
   acc.2 ++ (acc.1.map (fun s => (f s).2)).flatten)

/-- One iteration of the day loop (`backtester.py` lines 142-231): the day
is skipped for every strategy when the previous day's 估值百分位 or the
next day's 开盘价 is missing (line 143), and otherwise every strategy is
stepped. -/
def stepDay (acc : List Strategy × List TradeEvent) (r : Row) :
    List Strategy × List TradeEvent :=
  match r.prev_val, r.next_open with
  | some _, some nop =>
      stepAll (stepStrategy r.date nop r.prev_val r.val r.prev_boll r.boll) acc
  | _, _ => acc

/-- The whole simulation part of `backtest_single_index`: the day loop over
`df_test` followed by the forced-liquidation loop over the strategies
(which the source only reaches with a non-empty `df_test`, hence the
`getLast?` match). -/
def runSim (rows : List Row) : List Strategy × List TradeEvent :=
  let acc := rows.foldl stepDay (initStrategies, [])
  match rows.getLast? with
  | some last => stepAll (forceSell last) acc
  | none => acc

/-- The cutoff `datetime(2016, 1, 1)` as days since 1970-01-01 (`backtester.py` line 50). -/
def start_date : ℤ := 16801

/-- The window-selection step of `backtest_single_index` (lines 50-66):
the bars the day loop actually iterates over (empty when a guard fires). -/
def testBars (df : List Bar) : List Bar :=
  if df.length ≤ 250 then []
  else
    let df_filtered := df.filter (fun b => decide (start_date ≤ b.date))
    if df_filtered.length ≤ 250 then []
    else df_filtered.drop 250

/-- The rows of `df_test` with the shifted helper columns — the exact list
of days the simulation loop ranges over. -/
def evalRows (df : List Bar) : List Row := mkRows none none (testBars df)

/-- The span `(date_end - date_start).days` with the `None` guard,
`backtester.py` lines 278-281. -/
def strategy_duration (s : Strategy) : ℤ :=
  match s.date_start, s.date_end with
  | some a, some b => b - a
  | _, _ => 0

/-- The ratio `total_rate / (strategy_duration / 365)` with its zero guard,
`backtester.py` lines 283-286. -/
def strategy_duration_rate (total_rate : ℚ) (dur : ℤ) : ℚ :=
  if 0 < dur then total_rate / ((dur : ℚ) / 365) else 0

/-- The `annual_return` computation, `backtester.py` lines 288-296: `pf` abstracts
`np.power` on floats.  Both guards of the source are present; on a
non-positive holding time or a non-positive base the result is `0` and
`pf` is never applied. -/
def annualReturn (pf : ℚ → ℚ → ℚ) (total_rate : ℚ) (total_holding_days : ℤ) : ℚ :=
  if 0 < total_holding_days then
    if 0 < 1 + total_rate then pf (1 + total_rate) (365 / (total_holding_days : ℚ)) - 1
    else 0
  else 0

/-- The division `strategy['total_holding_days'] / strategy_duration`, `backtester.py`
line 299.  The source performs this division with no guard; `none` models
the `ZeroDivisionError` Python raises when `strategy_duration` is `0`. -/
def position_rate (total_holding_days dur : ℤ) : Option ℚ :=
  if dur = 0 then none else some ((total_holding_days : ℚ) / (dur : ℚ))

/-- One strategy's statistics record (`backtester.py` lines 301-314). -/
structure StrategyStat where
  mode : Mode
  strategy_name : String
  buy_threshold : ℚ
  sell_threshold : ℚ
  holding_days : ℤ
  capital : ℚ
  total_return : ℚ
  total_rate : ℚ
  annual_return : ℚ
  strategy_duration : ℤ
  strategy_duration_rate : ℚ
  position_rate : ℚ
deriving DecidableEq, Repr

/-- The per-strategy statistics computation (`backtester.py` lines 271-316);
`none` when the unguarded `position_rate` division raises. -/
def computeStat (pf : ℚ → ℚ → ℚ) (s : Strategy) : Option StrategyStat :=
  let total_return : ℚ := s.capital - 100000
  let total_rate : ℚ := total_return / 100000
  let dur : ℤ := strategy_duration s
  (position_rate s.total_holding_days dur).map (fun pr =>
    { mode := s.mode, strategy_name := s.name,
      buy_threshold := s.buy_threshold, sell_threshold := s.sell_threshold,
      holding_days := s.total_holding_days, capital := s.capital,
      total_return := total_return, total_rate := total_rate,
      annual_return := annualReturn pf total_rate s.total_holding_days,
      strategy_duration := dur,
      strategy_duration_rate := strategy_duration_rate total_rate dur,
      position_rate := pr })

/-- Collect a list of fallible computations, failing on the first error —
the behaviour of the statistics `for` loop, whose first raised exception
aborts the whole call. -/
def optionAll {α : Type} : List (Option α) → Option (List α)
  | [] => some []
  | none :: _ => none
  | some a :: t => (optionAll t).map (fun l => a :: l)

/-- The sort `stat.sort(key=lambda x: x['strategy_duration_rate'], reverse=True)`
(line 319): a stable descending sort on the ranking key. -/
def sortStats (l : List StrategyStat) : List StrategyStat :=
  l.insertionSort (fun a b => b.strategy_duration_rate ≤ a.strategy_duration_rate)

/-- The function `backtest_single_index` (`backtester.py` lines 35-321): guards, window
selection, simulation, statistics.  `none` models an uncaught exception
escaping the call (the only one reachable from well-formed input is the
`ZeroDivisionError` of `position_rate`). -/
def backtest_single_index (pf : ℚ → ℚ → ℚ) (df : List Bar) :
    Option (List TradeEvent × List StrategyStat) :=
  if df.length ≤ 250 then some ([], [])
  else
    let df_filtered := df.filter (fun b => decide (start_date ≤ b.date))
    if df_filtered.length ≤ 250 then some ([], [])
    else
      let df_test := df_filtered.drop 250
      if df_test.length = 0 then some ([], [])
      else
        let rows := mkRows none none df_test
        let res := runSim rows
        (optionAll ((res.1).map (computeStat pf))).map
          (fun stats => (res.2, sortStats stats))

/-! ## `data_processor.py`: rolling valuation percentiles and the composite -/

/-- Count of non-missing window values strictly below `v` — the quantity
`pandas.Series.rank(method='min')` assigns minus one (NaN entries get no
rank and are skipped). -/
def countBelow (v : ℚ) (l : List (Option ℚ)) : ℕ :=
  l.countP (fun o =>
    match o with
    | some w => decide (w < v)
    | none => false)

/-- Count of non-missing values in a window — the denominator of
`rank(pct=True)` and the quantity `min_periods` is checked against. -/
def countValid (l : List (Option ℚ)) : ℕ := l.countP Option.isSome

/-- The trailing window of up to `window` observations ending at
position `i` (positions `max 0 (i+1-window)` through `i`). -/
def trailingWindow (window : ℕ) (xs : List (Option ℚ)) (i : ℕ) : List (Option ℚ) :=
  (xs.take (i + 1)).drop (i + 1 - window)

/-- The source expression `series.rolling(window, min_periods=1).apply(lambda x:
x.rank(method='min', pct=True).iloc[-1])` — `data_processor.py`
lines 112-119 (and, negated, 123-125).  The window element at `i` is the
last element the lambda ranks; a missing current value gives a missing
rank (`na_option='keep'`), and when the whole window is missing the
`min_periods=1` check likewise produces a missing result, so both cases
collapse to the `none` branch. -/
def rolling_rank_pct (window : ℕ) (xs : List (Option ℚ)) (i : ℕ) : Option ℚ :=
  match xs.getD i none with
  | none => none
  | some v =>
      let win := trailingWindow window xs i
      some (((countBelow v win : ℚ) + 1) / (countValid win : ℚ))

/-- The non-missing values of a window. -/
def validValues (l : List (Option ℚ)) : List ℚ := l.filterMap id

/-- Modelled from the claim's words, for comparison with the source
definition: the minimum rank (1-based) of `v`'s tie group, i.e. one plus
the position of the first occurrence of `v` in the ascending sort of the
non-missing window values. -/
def minRankSorted (v : ℚ) (l : List ℚ) : ℕ :=
  (l.insertionSort (· ≤ ·)).indexOf v + 1

/-- The rolling percentile as the claim words it: minimum-rank-with-ties
percentile of the current value among the non-missing window values,
divided by the count of non-missing values; missing current value gives a
missing percentile. -/
def spec_rolling_rank_pct (window : ℕ) (xs : List (Option ℚ)) (i : ℕ) : Option ℚ :=
  match xs.getD i none with
  | none => none
  | some v =>
      let vals := validValues (trailingWindow window xs i)
      some ((minRankSorted v vals : ℚ) / (vals.length : ℚ))

/-- Missing-propagating addition: in pandas, element-wise `+` of series
returns `NaN` whenever either operand is `NaN`. -/
def optAdd : Option ℚ → Option ℚ → Option ℚ
  | some a, some b => some (a + b)
  | _, _ => none

/-- The composite `估值百分位` of one row, `data_processor.py` line 128:
`(市盈率百分位 + 市净率百分位 + 股息率收益率) / 3` — a plain element-wise
sum divided by 3, with pandas `NaN` propagation and no NaN-skipping. -/
def valuation_percentile (pe pb dyr : Option ℚ) : Option ℚ :=
  (optAdd (optAdd pe pb) dyr).map (fun sum3 => sum3 / 3)

/-! ## The per-strategy view of the trade log

A strategy's events are the log entries carrying its (unique) name.  The
FLAT/LONG position automaton read off the directions: `some b` is a valid
history ending flat (`b = false`) or long (`b = true`), `none` an invalid
history (a sell while flat, or a buy while long). -/

/-- The three selling directions. -/
def isSellDir : Direction → Bool
  | Direction.buy => false
  | Direction.stop_loss_sell => true
  | Direction.take_profit_sell => true
  | Direction.force_sell => true

/-- Position automaton on directions: a buy is legal only while flat, a
sell only while long. -/
def stepDir : Option Bool → Direction → Option Bool
  | some false, Direction.buy => some true
  | some true, d => if isSellDir d then some false else none
  | _, _ => none

/-- The automaton `stepDir` lifted to trade events. -/
def dirStep (a : Option Bool) (e : TradeEvent) : Option Bool := stepDir a e.direction

/-- Capital is replaced by the sale proceeds at each sell-type event and
untouched by everything else. -/
def capFold (c : ℚ) (e : TradeEvent) : ℚ := if isSellDir e.direction then e.cash else c

/-- The direction a strict buy/sell alternation expects next. -/
def expectDir (inPos : Bool) (d : Direction) : Bool :=
  if inPos then isSellDir d
  else
    match d with
    | Direction.buy => true
    | _ => false

/-- Predicate `altOk b l` : starting from position flag `b` (`false` = expecting a
buy), `l` strictly alternates buys and sell-type events. -/
def altOk : Bool → List Direction → Bool
  | _, [] => true
  | b, d :: t => expectDir b d && altOk (!b) t

/-- The run invariant tying each strategy's state to a fold over its own
slice of the shared log: names never change, and an abstraction `proj` of
the state equals the fold of `g` over the strategy's events so far. -/
def runInv {α : Type} (proj : Strategy → α) (g : α → TradeEvent → α) (a0 : α)
    (acc : List Strategy × List TradeEvent) : Prop :=
  acc.1.map Strategy.name = initStrategies.map Strategy.name ∧
  ∀ s ∈ acc.1,
    proj s = (acc.2.filter (fun e => decide (e.strategy_name = s.name))).foldl g a0

/-! ## Concrete inputs used by witnesses and counterexamples -/

/-- A stand-in for `np.power` in concrete evaluations. -/
def pf0 : ℚ → ℚ → ℚ := fun _ _ => 0

/-- A featureless bar with constant prices and present indicators. -/
def mkFlatBar (d : ℤ) : Bar :=
  { date := d, openPrice := 1, closePrice := 1, val := some (1/2), boll := some (1/2) }

/-- 250 bars, all on/after 2016-01-01. -/
def df250 : List Bar := (List.range 250).map (fun k => mkFlatBar (start_date + k))

/-- 251 bars, all on/after 2016-01-01: the evaluation set is one single
day, which the loop skips (its `prev_估值百分位` is the shifted-in `NaN`),
so every strategy ends with `date_start = None` and `strategy_duration = 0`. -/
def df251 : List Bar := (List.range 251).map (fun k => mkFlatBar (start_date + k))

/-- A Bollinger-mode strategy holding a position entered at price 10
(shares worth 100000 at entry, as after a buy at that price). -/
def bollLongStrategy : Strategy :=
  { mkStrategy (10/100) (40/100) "10-40布林线" Mode.bollinger with
      position := true, position_date := some start_date,
      buy_price := 10, shares := 10000 }

/-- A day whose previous-day Bollinger position is missing while the
previous-day valuation percentile and the next-day open are present, and
whose next-day open (8) is more than 15% below the entry price 10. -/
def stopLossRow : Row :=
  { date := start_date + 5, openPrice := 9, closePrice := 9,
    val := some (1/2), boll := some (1/2),
    prev_val := some (1/2), prev_boll := none, next_open := some 8 }

/-! ## Helper lemmas -/

lemma mkRows_length (pv pb : Option ℚ) (l : List Bar) :
    (mkRows pv pb l).length = l.length := by
  induction l generalizing pv pb with
  | nil => rfl
  | cons b rest ih => simp [mkRows, ih]

lemma buySignal_position (t : Strategy) (pv cv pb cb : Option ℚ)
    (h : buySignal t pv cv pb cb = true) : t.position = false := by
  unfold buySignal at h
  cases hm : t.mode <;> rw [hm] at h <;>
    simp only [Bool.and_eq_true, Bool.not_eq_true'] at h <;> exact h.1

lemma stepStrategy_name (d : ℤ) (nop : ℚ) (pv cv pb cb : Option ℚ) (s : Strategy) :
    ((stepStrategy d nop pv cv pb cb s).1).name = s.name := by
  simp only [stepStrategy]
  split
  · rfl
  · split
    · split
      · rfl
      · rfl
    · rfl

lemma stepStrategy_ev_name (d : ℤ) (nop : ℚ) (pv cv pb cb : Option ℚ) (s : Strategy) :
    ∀ e ∈ (stepStrategy d nop pv cv pb cb s).2, e.strategy_name = s.name := by
  simp only [stepStrategy]
  split
  · intro e he
    simp at he
    subst he
    rfl
  · split
    · split
      · intro e he
        simp at he
        subst he
        rfl
      · intro e he
        simp at he
    · intro e he
      simp at he

lemma stepStrategy_dirfold (d : ℤ) (nop : ℚ) (pv cv pb cb : Option ℚ) (s : Strategy) :
    ((stepStrategy d nop pv cv pb cb s).2).foldl dirStep (some s.position) =
      some ((stepStrategy d nop pv cv pb cb s).1).position := by
  simp only [stepStrategy]
  split
  · rename_i h
    have hpos : s.position = false := buySignal_position _ _ _ _ _ h
    simp [dirStep, stepDir, hpos]
  · split
    · rename_i h2
      have hpos : s.position = true := by
        simp only [Bool.and_eq_true] at h2
        simpa [withDates] using h2.1
      split
      · simp only [List.foldl_cons, List.foldl_nil, dirStep, hpos]
        split <;> rfl
      · simp [hpos, withDates]
    · simp [withDates]

lemma stepStrategy_capfold (d : ℤ) (nop : ℚ) (pv cv pb cb : Option ℚ) (s : Strategy) :
    ((stepStrategy d nop pv cv pb cb s).2).foldl capFold s.capital =
      ((stepStrategy d nop pv cv pb cb s).1).capital := by
  simp only [stepStrategy]
  split
  · simp [capFold, isSellDir, withDates]
  · split
    · split
      · simp only [List.foldl_cons, List.foldl_nil, capFold]
        split <;> rfl
      · simp [withDates]
    · simp [withDates]

lemma forceSell_name (last : Row) (s : Strategy) :
    ((forceSell last s).1).name = s.name := by
  unfold forceSell
  split <;> rfl

lemma forceSell_ev_name (last : Row) (s : Strategy) :
    ∀ e ∈ (forceSell last s).2, e.strategy_name = s.name := by
  unfold forceSell
  split
  · intro e he
    simp at he
    subst he
    rfl
  · intro e he
    simp at he

lemma forceSell_position (last : Row) (s : Strategy) :
    ((forceSell last s).1).position = false := by
  unfold forceSell
  split
  · rfl
  · rename_i h
    simpa using h

lemma forceSell_dirfold (last : Row) (s : Strategy) :
    ((forceSell last s).2).foldl dirStep (some s.position) =
      some ((forceSell last s).1).position := by
  unfold forceSell
  split
  · rename_i h
    simp [dirStep, stepDir, h, isSellDir]
  · rename_i h
    simp at h
    simp [h]

lemma forceSell_capfold (last : Row) (s : Strategy) :
    ((forceSell last s).2).foldl capFold s.capital =
      ((forceSell last s).1).capital := by
  unfold forceSell
  split
  · simp [capFold, isSellDir]
  · rfl

lemma initStrategies_names_nodup : (initStrategies.map Strategy.name).Nodup := by
  decide

lemma filter_flatten_eq {f : Strategy → Strategy × List TradeEvent}
    (hev : ∀ s, ∀ e ∈ (f s).2, e.strategy_name = s.name)
    (l : List Strategy) (hnod : (l.map Strategy.name).Nodup)
    (s : Strategy) (hs : s ∈ l) :
    ((l.map (fun t => (f t).2)).flatten).filter
        (fun e => decide (e.strategy_name = s.name)) = (f s).2 := by
  induction l with
  | nil => cases hs
  | cons a t ih =>
    simp only [List.map_cons, List.flatten_cons, List.filter_append]
    simp only [List.map_cons, List.nodup_cons] at hnod
    rcases List.mem_cons.mp hs with rfl | hst
    · have h1 : (f s).2.filter (fun e => decide (e.strategy_name = s.name)) = (f s).2 :=
        List.filter_eq_self.mpr (fun e he => by simp [hev s e he])
      have h2 : ((t.map fun u => (f u).2).flatten).filter
          (fun e => decide (e.strategy_name = s.name)) = [] := by
        apply List.filter_eq_nil_iff.mpr
        intro e he
        obtain ⟨le, hle, hele⟩ := List.mem_flatten.mp he
        obtain ⟨u, hu, rfl⟩ := List.mem_map.mp hle
        have hne : u.name ≠ s.name := fun hc =>
          hnod.1 (hc ▸ List.mem_map.mpr ⟨u, hu, rfl⟩)
        simp [hev u e hele, hne]
      rw [h1, h2, List.append_nil]
    · have hne : a.name ≠ s.name := fun hc =>
        hnod.1 (hc ▸ List.mem_map.mpr ⟨s, hst, rfl⟩)
      have h1 : (f a).2.filter (fun e => decide (e.strategy_name = s.name)) = [] :=
        List.filter_eq_nil_iff.mpr (fun e he => by simp [hev a e he, hne])
      rw [h1, List.nil_append, ih hnod.2 hst]

lemma stepAll_runInv {α : Type} {proj : Strategy → α} {g : α → TradeEvent → α} {a0 : α}
    {f : Strategy → Strategy × List TradeEvent}
    (hname : ∀ s, ((f s).1).name = s.name)
    (hev : ∀ s, ∀ e ∈ (f s).2, e.strategy_name = s.name)
    (hstep : ∀ s, ((f s).2).foldl g (proj s) = proj ((f s).1))
    (acc : List Strategy × List TradeEvent)
    (hinv : runInv proj g a0 acc) : runInv proj g a0 (stepAll f acc) := by
  obtain ⟨hnames, hrest⟩ := hinv
  have hnodup : (acc.1.map Strategy.name).Nodup := by
    rw [hnames]; exact initStrategies_names_nodup
  constructor
  · simp only [stepAll, List.map_map]
    rw [List.map_congr_left (fun s _ => (by simp [hname s] :
      (Strategy.name ∘ fun u => (f u).1) s = Strategy.name s))]
    exact hnames
  · intro s' hs'
    simp only [stepAll] at hs' ⊢
    obtain ⟨s, hs, rfl⟩ := List.mem_map.mp hs'
    simp only [hname s]
    rw [List.filter_append, List.foldl_append, ← hrest s hs,
      filter_flatten_eq hev acc.1 hnodup s hs]
    exact (hstep s).symm

lemma foldDays_runInv {α : Type} {proj : Strategy → α} {g : α → TradeEvent → α} {a0 : α}
    (hstepS : ∀ d nop pv cv pb cb s,
      ((stepStrategy d nop pv cv pb cb s).2).foldl g (proj s) =
        proj ((stepStrategy d nop pv cv pb cb s).1))
    (rows : List Row) (acc : List Strategy × List TradeEvent)
    (hinv : runInv proj g a0 acc) : runInv proj g a0 (rows.foldl stepDay acc) := by
  induction rows generalizing acc with
  | nil => exact hinv
  | cons r rest ih =>
    apply ih
    cases hpv : r.prev_val with
    | none => cases hno : r.next_open <;> simpa [stepDay, hpv, hno] using hinv
    | some v =>
      cases hno : r.next_open with
      | none => simpa [stepDay, hpv, hno] using hinv
      | some nop =>
        simp only [List.foldl_cons, stepDay, hpv, hno]
        exact stepAll_runInv (stepStrategy_name r.date nop (some v) r.val r.prev_boll r.boll)
          (stepStrategy_ev_name r.date nop (some v) r.val r.prev_boll r.boll)
          (fun s => hstepS r.date nop (some v) r.val r.prev_boll r.boll s) acc hinv

lemma runSim_runInv {α : Type} {proj : Strategy → α} {g : α → TradeEvent → α} {a0 : α}
    (hstepS : ∀ d nop pv cv pb cb s,
      ((stepStrategy d nop pv cv pb cb s).2).foldl g (proj s) =
        proj ((stepStrategy d nop pv cv pb cb s).1))
    (hstepF : ∀ last s,
      ((forceSell last s).2).foldl g (proj s) = proj ((forceSell last s).1))
    (hinit : ∀ s ∈ initStrategies, proj s = a0)
    (rows : List Row) : runInv proj g a0 (runSim rows) := by
  have h0 : runInv proj g a0 (initStrategies, []) :=
    ⟨rfl, fun s hs => by simpa using hinit s hs⟩
  have h1 := foldDays_runInv hstepS rows _ h0
  unfold runSim
  cases hl : rows.getLast? with
  | none => exact h1
  | some last =>
    exact stepAll_runInv (forceSell_name last) (forceSell_ev_name last)
      (hstepF last) _ h1

lemma runSim_position_false (rows : List Row) :
    ∀ s ∈ (runSim rows).1, s.position = false := by
  unfold runSim
  cases hl : rows.getLast? with
  | none =>
    have hnil : rows = [] := List.getLast?_eq_none_iff.mp hl
    subst hnil
    intro s hs
    simp only [List.foldl_nil] at hs
    revert s
    decide
  | some last =>
    intro s hs
    simp only [stepAll] at hs
    obtain ⟨t, _, rfl⟩ := List.mem_map.mp hs
    exact forceSell_position last t

lemma foldl_stepDir_none (l : List TradeEvent) : l.foldl dirStep none = none := by
  induction l with
  | nil => rfl
  | cons e t ih => simpa [dirStep, stepDir] using ih

lemma stepDir_some {b0 : Bool} {d : Direction} (ha : (stepDir (some b0) d).isSome) :
    expectDir b0 d = true ∧ stepDir (some b0) d = some (!b0) := by
  cases b0 <;> cases d <;> simp_all [stepDir, expectDir, isSellDir]

lemma alt_of_foldl (l : List TradeEvent) (b0 b1 : Bool)
    (h : l.foldl dirStep (some b0) = some b1) :
    altOk b0 (l.map TradeEvent.direction) = true ∧ (Even l.length ↔ b0 = b1) := by
  induction l generalizing b0 with
  | nil =>
    simp only [List.foldl_nil, Option.some.injEq] at h
    simp [altOk, h]
  | cons e t ih =>
    simp only [List.foldl_cons] at h
    have hsome : (stepDir (some b0) e.direction).isSome := by
      cases hd : stepDir (some b0) e.direction with
      | none =>
        rw [show dirStep (some b0) e = none from hd] at h
        rw [foldl_stepDir_none] at h
        cases h
      | some b => rfl
    obtain ⟨hexp, heq⟩ := stepDir_some hsome
    rw [show dirStep (some b0) e = stepDir (some b0) e.direction from rfl, heq] at h
    obtain ⟨halt, hev⟩ := ih (!b0) h
    constructor
    · simpa [altOk, hexp] using halt
    · simp only [List.length_cons, Nat.even_add_one, hev]
      cases b0 <;> cases b1 <;> simp

lemma stepStrategy_date_end (d : ℤ) (nop : ℚ) (pv cv pb cb : Option ℚ) (s : Strategy) :
    ((stepStrategy d nop pv cv pb cb s).1).date_end = some d := by
  simp only [stepStrategy]
  split
  · rfl
  · split
    · split
      · rfl
      · rfl
    · rfl

/-! ## Claims -/

set_option maxRecDepth 10000

/-- C1: the claim says the `position_rate` division is guarded and falls
back to a defined value when `window_duration_days` is `0`.  The code at
`backtester.py` line 299 has no guard: with a reachable input (251 bars on
or after 2016-01-01, so the single evaluation day is skipped and
`strategy_duration` stays `0`) the division `total_holding_days /
strategy_duration` raises `ZeroDivisionError` — modelled as `none` — and
the whole backtest call aborts instead of reporting a fallback value. -/
theorem position_rate_unguarded_raises (pf : ℚ → ℚ → ℚ) :
    backtest_single_index pf df251 = none ∧ position_rate 0 0 = none :=
  ⟨rfl, rfl⟩

/-- C2: a bar sequence with exactly 250 bars on/after 2016-01-01 makes the
whole backtest return the empty log and empty stats, and one with exactly
251 such bars gives a simulation loop that ranges over exactly one day
(`evalRows` is the list of rows the `for i, row in df_test.iterrows()`
loop iterates over). -/
theorem warmup_window_boundary (pf : ℚ → ℚ → ℚ) (df : List Bar) :
    ((df.filter (fun b => decide (start_date ≤ b.date))).length = 250 →
      backtest_single_index pf df = some ([], [])) ∧
    ((df.filter (fun b => decide (start_date ≤ b.date))).length = 251 →
      (evalRows df).length = 1) := by
  constructor
  · intro h
    unfold backtest_single_index
    by_cases hlen : df.length ≤ 250
    · simp [hlen]
    · simp [hlen, h]
  · intro h
    have hle := List.length_filter_le (fun b => decide (start_date ≤ b.date)) df
    have hlen : ¬ df.length ≤ 250 := by omega
    simp [evalRows, testBars, hlen, h, mkRows_length]

/-- Witness for C2: both hypotheses discharged on concrete bar lists. -/
theorem warmup_window_boundary_witness :
    backtest_single_index pf0 df250 = some ([], []) ∧ (evalRows df251).length = 1 :=
  ⟨(warmup_window_boundary pf0 df250).1 (by decide),
   (warmup_window_boundary pf0 df251).2 (by decide)⟩

/-- C3 counterexample: the claim says a day is skipped for a strategy
exactly when the previous day's *mode-relevant* indicator (Bollinger
position, for a Bollinger strategy) or the next open is missing, with no
state change on such a day.  The code's skip test (`backtester.py`
line 143) only looks at `prev_估值百分位`: on a concrete day whose
previous Bollinger position is missing but whose previous valuation
percentile and next open are present, a Bollinger-mode strategy in a
losing long position is *not* skipped — its stop-loss fires, an event is
emitted, and its capital changes. -/
theorem skip_day_mode_counterexample :
    stopLossRow.prev_boll = none ∧
    bollLongStrategy.mode = Mode.bollinger ∧
    (stepDay ([bollLongStrategy], []) stopLossRow).2 ≠ [] ∧
    ((stepDay ([bollLongStrategy], []) stopLossRow).1.headD bollLongStrategy).capital ≠
      bollLongStrategy.capital := by
  refine ⟨rfl, rfl, ?_, ?_⟩ <;>
    norm_num [stepDay, stepAll, stepStrategy, withDates, buySignal, stopLossSignal,
      currentReturn, takeProfitSignal, optCross, crossed_up, bollLongStrategy,
      stopLossRow, mkStrategy]

/-- C3 amended: a day of the evaluation loop is skipped — no signal
evaluated, no state change, no event, for *every* strategy regardless of
its mode — exactly when the previous day's valuation percentile
(`prev_估值百分位`) or the next day's open is missing; when both are
present every strategy is evaluated that day (each strategy's `date_end`
is advanced to the day's date), even a Bollinger strategy whose previous
Bollinger position is missing. -/
theorem skip_day_uses_valuation_for_all_modes (r : Row)
    (acc : List Strategy × List TradeEvent) :
    ((r.prev_val = none ∨ r.next_open = none) → stepDay acc r = acc) ∧
    (∀ v p, r.prev_val = some v → r.next_open = some p →
      ∀ t ∈ (stepDay acc r).1, t.date_end = some r.date) := by
  constructor
  · rintro (h | h)
    · simp [stepDay, h]
    · cases hpv : r.prev_val <;> simp [stepDay, h, hpv]
  · intro v p hv hp t ht
    simp only [stepDay, hv, hp, stepAll] at ht
    obtain ⟨u, _, rfl⟩ := List.mem_map.mp ht
    exact stepStrategy_date_end r.date p (some v) r.val r.prev_boll r.boll u

/-- Witness for the amended C3: a skipped concrete day leaves the state
untouched, and on the concrete non-skipped day every strategy's
`date_end` is set. -/
theorem skip_day_uses_valuation_for_all_modes_witness :
    stepDay ([bollLongStrategy], [])
        ((mkRows none none [mkFlatBar start_date]).headD stopLossRow) =
      ([bollLongStrategy], []) ∧
    (∀ t ∈ (stepDay ([bollLongStrategy], []) stopLossRow).1,
      t.date_end = some stopLossRow.date) :=
  ⟨(skip_day_uses_valuation_for_all_modes _ _).1 (Or.inl rfl),
   fun t ht => (skip_day_uses_valuation_for_all_modes _ _).2 (1/2) 8 rfl rfl t ht⟩

/-- C4: at every sell leg — a stop-loss or take-profit step of the day
loop, or a forced liquidation — the strategy's capital immediately after
the event is exactly `shares × exit price` (the execution price `nop`,
resp. the liquidation price, which every emitted event carries in its
`price` field), and `total_holding_days` grows by the calendar-day
difference between the exit date and the entry date; a step that emits no
sell event leaves capital and holding days unchanged (a buy commits
capital but does not change it), and over a whole run each strategy's
capital is exactly the fold that replaces capital by the proceeds at each
of its sell events and touches it nowhere else. -/
theorem sell_leg_capital_exact (d : ℤ) (nop : ℚ) (pv cv pb cb : Option ℚ)
    (last : Row) (s : Strategy) (pd : ℤ) (hpd : s.position_date = some pd) :
    (((stepStrategy d nop pv cv pb cb s).2).any (fun e => isSellDir e.direction) = true →
      ((stepStrategy d nop pv cv pb cb s).1).capital = s.shares * nop ∧
      ((stepStrategy d nop pv cv pb cb s).1).total_holding_days =
        s.total_holding_days + (d - pd)) ∧
    (((stepStrategy d nop pv cv pb cb s).2).any (fun e => isSellDir e.direction) = false →
      ((stepStrategy d nop pv cv pb cb s).1).capital = s.capital ∧
      ((stepStrategy d nop pv cv pb cb s).1).total_holding_days = s.total_holding_days) ∧
    ((stepStrategy d nop pv cv pb cb s).2).all (fun e => decide (e.price = nop)) = true ∧
    (((forceSell last s).2).any (fun e => isSellDir e.direction) = true →
      ((forceSell last s).1).capital = s.shares * (last.next_open.getD last.closePrice) ∧
      ((forceSell last s).1).total_holding_days =
        s.total_holding_days + (last.date - pd)) ∧
    (((forceSell last s).2).any (fun e => isSellDir e.direction) = false →
      (forceSell last s).1 = s) ∧
    (∀ df : List Bar, ∀ t ∈ (runSim (evalRows df)).1,
      t.capital = (((runSim (evalRows df)).2).filter
        (fun e => decide (e.strategy_name = t.name))).foldl capFold 100000) := by
  have hcap : ∀ u ∈ initStrategies, u.capital = (100000 : ℚ) := by decide
  refine ⟨?_, ?_, ?_, ?_, ?_, ?_⟩
  · simp only [stepStrategy]
    split
    · intro h
      simp [isSellDir] at h
    · split
      · split
        · intro _
          exact ⟨rfl, by simp [withDates, hpd]⟩
        · intro h
          simp at h
      · intro h
        simp at h
  · simp only [stepStrategy]
    split
    · intro _
      exact ⟨rfl, rfl⟩
    · split
      · split
        · intro h
          simp only [List.any_cons, List.any_nil, Bool.or_false] at h
          rw [show isSellDir (if stopLossSignal (withDates d s) nop
              then Direction.stop_loss_sell else Direction.take_profit_sell) = true by
            split <;> rfl] at h
          cases h
        · intro _
          exact ⟨rfl, rfl⟩
      · intro _
        exact ⟨rfl, rfl⟩
  · simp only [stepStrategy]
    split
    · simp
    · split
      · split
        · simp
        · simp
      · simp
  · unfold forceSell
    split
    · intro _
      refine ⟨?_, by simp [hpd]⟩
      cases last.next_open <;> rfl
    · intro h
      simp at h
  · unfold forceSell
    split
    · intro h
      simp only [List.any_cons, List.any_nil, Bool.or_false] at h
      cases h
    · intro _
      rfl
  · intro df
    exact (runSim_runInv stepStrategy_capfold forceSell_capfold hcap (evalRows df)).2

/-- Witness for C4: on the concrete stop-loss day, the sell leg is
emitted and the equations hold with the concrete entry date. -/
theorem sell_leg_capital_exact_witness :
    ((stepStrategy stopLossRow.date 8 stopLossRow.prev_val stopLossRow.val
        stopLossRow.prev_boll stopLossRow.boll bollLongStrategy).2).any
      (fun e => isSellDir e.direction) = true ∧
    ((stepStrategy stopLossRow.date 8 stopLossRow.prev_val stopLossRow.val
        stopLossRow.prev_boll stopLossRow.boll bollLongStrategy).1).capital =
      bollLongStrategy.shares * 8 ∧
    ((stepStrategy stopLossRow.date 8 stopLossRow.prev_val stopLossRow.val
        stopLossRow.prev_boll stopLossRow.boll bollLongStrategy).1).total_holding_days =
      bollLongStrategy.total_holding_days + (stopLossRow.date - start_date) := by
  have hany : ((stepStrategy stopLossRow.date 8 stopLossRow.prev_val stopLossRow.val
      stopLossRow.prev_boll stopLossRow.boll bollLongStrategy).2).any
        (fun e => isSellDir e.direction) = true := by
    norm_num [stepStrategy, withDates, buySignal, stopLossSignal, currentReturn,
      takeProfitSignal, optCross, crossed_up, bollLongStrategy, stopLossRow,
      mkStrategy, isSellDir]
  have h := (sell_leg_capital_exact stopLossRow.date 8 stopLossRow.prev_val
    stopLossRow.val stopLossRow.prev_boll stopLossRow.boll stopLossRow
    bollLongStrategy start_date rfl).1 hany
  exact ⟨hany, h.1, h.2⟩

/-- C5: after the evaluation loop, a strategy still in the LONG state is
closed by a single `force_sell` event dated at the final row, at the final
row's next-day open when present and otherwise its close price, with
capital and holding days updated by the normal exit formulas; a FLAT
strategy is left untouched; and after the liquidation loop no strategy of
the run remains LONG. -/
theorem forced_liquidation_closes_long (last : Row) (s : Strategy) (pd : ℤ) :
    (s.position = true → s.position_date = some pd →
      (forceSell last s).2 =
        [{ date := last.date, strategy_name := s.name,
           direction := Direction.force_sell,
           amount := s.shares * (last.next_open.getD last.closePrice),
           price := last.next_open.getD last.closePrice,
           cash := s.shares * (last.next_open.getD last.closePrice) }] ∧
      ((forceSell last s).1).position = false ∧
      ((forceSell last s).1).capital =
        s.shares * (last.next_open.getD last.closePrice) ∧
      ((forceSell last s).1).total_holding_days =
        s.total_holding_days + (last.date - pd)) ∧
    (s.position = false → forceSell last s = (s, [])) ∧
    (∀ rows : List Row, ∀ t ∈ (runSim rows).1, t.position = false) := by
  refine ⟨?_, ?_, runSim_position_false⟩
  · intro hpos hpd
    unfold forceSell
    rw [if_pos hpos, hpd]
    cases hno : last.next_open <;> simp [Option.getD]
  · intro hpos
    unfold forceSell
    rw [if_neg (by simp [hpos])]

/-- Witness for C5: both branches at concrete strategies, and the
no-LONG-remains conjunct at a concrete run. -/
theorem forced_liquidation_closes_long_witness :
    ((forceSell stopLossRow bollLongStrategy).1).position = false ∧
    forceSell stopLossRow (mkStrategy (10/100) (40/100) "10-40估值线" Mode.fundamental) =
      (mkStrategy (10/100) (40/100) "10-40估值线" Mode.fundamental, []) ∧
    (∀ t ∈ (runSim (evalRows df251)).1, t.position = false) :=
  ⟨((forced_liquidation_closes_long stopLossRow bollLongStrategy start_date).1
      rfl rfl).2.1,
   (forced_liquidation_closes_long stopLossRow _ 0).2.1 rfl,
   fun t ht => (forced_liquidation_closes_long stopLossRow bollLongStrategy 0).2.2
      (evalRows df251) t ht⟩

/-- C6: the crossing signal is the pure predicate
`prev_value < threshold ≤ curr_value`, true on the spec's upward example
and false on its downward example. -/
theorem crossed_up_spec :
    (∀ prev_value curr_value threshold : ℚ,
        (crossed_up prev_value curr_value threshold = true ↔
          (prev_value < threshold ∧ threshold ≤ curr_value))) ∧
    crossed_up (9/100) (11/100) (10/100) = true ∧
    crossed_up (12/100) (9/100) (10/100) = false := by
  refine ⟨fun p c t => ?_, by norm_num [crossed_up], by norm_num [crossed_up]⟩
  simp [crossed_up]

/-- C8: the composite valuation percentile is the plain arithmetic mean of
the three component percentiles, and a missing value in any one component
makes the composite missing (no NaN-skipping). -/
theorem valuation_percentile_plain_mean (pe pb dyr : Option ℚ) :
    (∀ a b c : ℚ, pe = some a → pb = some b → dyr = some c →
        valuation_percentile pe pb dyr = some ((a + b + c) / 3)) ∧
    ((pe = none ∨ pb = none ∨ dyr = none) → valuation_percentile pe pb dyr = none) := by
  constructor
  · rintro a b c rfl rfl rfl
    rfl
  · intro h
    rcases h with h | h | h
    · subst h; cases pb <;> cases dyr <;> rfl
    · subst h; cases pe <;> cases dyr <;> rfl
    · subst h; cases pe <;> cases pb <;> rfl

/-- Witness for C8 at concrete component values. -/
theorem valuation_percentile_plain_mean_witness :
    valuation_percentile (some (1/2)) (some (1/4)) (some (3/4)) =
      some ((1/2 + 1/4 + 3/4) / 3) ∧
    valuation_percentile (some (1/2)) (some (1/4)) none = none :=
  ⟨(valuation_percentile_plain_mean _ _ _).1 _ _ _ rfl rfl rfl,
   (valuation_percentile_plain_mean _ _ _).2 (Or.inr (Or.inr rfl))⟩

/-- C9: `annual_return` is `(1 + total_rate) ^ (365 / total_holding_days) - 1`
exactly when `total_holding_days > 0` and the base `1 + total_rate` is
positive, and `0` in every other case; the power (abstracted by `pf`,
standing for `np.power`) is never applied to a non-positive base, so the
computation is total and never raises. -/
theorem annualReturn_guarded (pf : ℚ → ℚ → ℚ) (total_rate : ℚ) (days : ℤ) :
    (0 < days → 0 < 1 + total_rate →
      annualReturn pf total_rate days = pf (1 + total_rate) (365 / (days : ℚ)) - 1) ∧
    ((¬ 0 < days ∨ 1 + total_rate ≤ 0) → annualReturn pf total_rate days = 0) := by
  constructor
  · intro h1 h2
    simp [annualReturn, h1, h2]
  · rintro (h | h)
    · simp [annualReturn, h]
    · have h2 : ¬ 0 < 1 + total_rate := not_lt.mpr h
      unfold annualReturn
      by_cases h1 : 0 < days <;> simp [h1, h2]

/-- Witness for C9: both branches at concrete inputs. -/
theorem annualReturn_guarded_witness :
    annualReturn pf0 0 1 = pf0 (1 + 0) (365 / ((1 : ℤ) : ℚ)) - 1 ∧
    annualReturn pf0 (-2) 1 = 0 :=
  ⟨(annualReturn_guarded pf0 0 1).1 (by decide) (by norm_num),
   (annualReturn_guarded pf0 (-2) 1).2 (Or.inr (by norm_num))⟩

/-- C10: in any returned trade log, each strategy's subsequence of events
(the entries carrying its name) strictly alternates: it opens with a buy
if non-empty, every buy is followed by exactly one sell-type event before
any further buy, no buy is left unmatched (forced liquidation closes any
open position), and consequently the per-strategy event count is even. -/
theorem trade_log_alternates (pf : ℚ → ℚ → ℚ) (df : List Bar)
    (log : List TradeEvent) (stats : List StrategyStat)
    (hbt : backtest_single_index pf df = some (log, stats)) :
    ∀ s ∈ initStrategies,
      altOk false ((log.filter (fun e => decide (e.strategy_name = s.name))).map
        TradeEvent.direction) = true ∧
      Even (log.filter (fun e => decide (e.strategy_name = s.name))).length := by
  have hlog : log = [] ∨ ∃ rows : List Row, log = (runSim rows).2 := by
    simp only [backtest_single_index] at hbt
    split_ifs at hbt with h1 h2 h3
    · injection hbt with h
      cases h
      exact Or.inl rfl
    · injection hbt with h
      cases h
      exact Or.inl rfl
    · injection hbt with h
      cases h
      exact Or.inl rfl
    · obtain ⟨st0, _, heq⟩ := Option.map_eq_some'.mp hbt
      injection heq with hl hstt
      cases hl
      exact Or.inr ⟨_, rfl⟩
  intro s hs
  rcases hlog with rfl | ⟨rows, rfl⟩
  · simp [altOk]
  · obtain ⟨hnames, hfold⟩ := runSim_runInv stepStrategy_dirfold forceSell_dirfold
      (show ∀ u ∈ initStrategies, some u.position = some false by decide) rows
    have hmem : s.name ∈ (runSim rows).1.map Strategy.name := by
      rw [hnames]
      exact List.mem_map.mpr ⟨s, hs, rfl⟩
    obtain ⟨t, ht, htname⟩ := List.mem_map.mp hmem
    have h : some t.position = List.foldl dirStep (some false)
        (List.filter (fun e => decide (e.strategy_name = t.name)) (runSim rows).2) :=
      hfold t ht
    rw [runSim_position_false rows t ht] at h
    simp only [htname] at h
    obtain ⟨halt, hev⟩ := alt_of_foldl _ false false h.symm
    exact ⟨halt, hev.mpr rfl⟩

/-- Witness for C10 at a concrete input: the empty bar list is accepted by
the backtest (empty log), for which each strategy's slice is trivially an
even-length alternation. -/
theorem trade_log_alternates_witness :
    altOk false ((([] : List TradeEvent).filter
      (fun e => decide (e.strategy_name =
        (mkStrategy (10/100) (40/100) "10-40估值线" Mode.fundamental).name))).map
      TradeEvent.direction) = true ∧
    Even (([] : List TradeEvent).filter
      (fun e => decide (e.strategy_name =
        (mkStrategy (10/100) (40/100) "10-40估值线" Mode.fundamental).name))).length :=
  trade_log_alternates pf0 [] [] [] rfl _
    (by unfold initStrategies; exact List.mem_cons_self _ _)

lemma countValid_eq_length (l : List (Option ℚ)) :
    countValid l = (validValues l).length := by
  induction l with
  | nil => rfl
  | cons o t ih =>
    cases o with
    | none => simpa [countValid, validValues, List.countP_cons] using ih
    | some a => simpa [countValid, validValues, List.countP_cons] using ih

lemma countBelow_eq_countP (v : ℚ) (l : List (Option ℚ)) :
    countBelow v l = (validValues l).countP (fun w => decide (w < v)) := by
  induction l with
  | nil => rfl
  | cons o t ih =>
    cases o with
    | none => simpa [countBelow, validValues, List.countP_cons] using ih
    | some a => simpa [countBelow, validValues, List.countP_cons] using ih

lemma mem_validValues_window {xs : List (Option ℚ)} {i : ℕ} {v : ℚ}
    (hx : xs.getD i none = some v) {w : ℕ} (hw : 1 ≤ w) :
    v ∈ validValues (trailingWindow w xs i) := by
  have hx' : xs[i]? = some (some v) := by
    rw [List.getD_eq_getElem?_getD] at hx
    cases h : xs[i]? with
    | none => rw [h] at hx; cases hx
    | some o => rw [h] at hx; simp only [Option.getD_some] at hx; rw [hx]
  have hwin : (trailingWindow w xs i)[i - (i + 1 - w)]? = some (some v) := by
    unfold trailingWindow
    rw [List.getElem?_drop]
    have harith : (i + 1 - w) + (i - (i + 1 - w)) = i := by omega
    rw [harith, List.getElem?_take]
    simp [Nat.lt_succ_self, hx']
  have hmem : some v ∈ trailingWindow w xs i := by
    obtain ⟨hlt, he⟩ := List.getElem?_eq_some.mp hwin
    exact he ▸ List.getElem_mem hlt
  exact List.mem_filterMap.mpr ⟨some v, hmem, rfl⟩

lemma indexOf_sorted (l : List ℚ) (hs : l.Pairwise (· ≤ ·)) (v : ℚ) (hv : v ∈ l) :
    l.indexOf v = l.countP (fun w => decide (w < v)) := by
  induction l with
  | nil => cases hv
  | cons a t ih =>
    rcases List.pairwise_cons.mp hs with ⟨hall, ht⟩
    by_cases hav : a = v
    · subst hav
      rw [List.indexOf_cons_self, List.countP_cons]
      have h2 : t.countP (fun w => decide (w < a)) = 0 :=
        List.countP_eq_zero.mpr (fun w hw => by simp [not_lt.mpr (hall w hw)])
      simp [h2]
    · have hvt : v ∈ t := by
        rcases List.mem_cons.mp hv with h | h
        · exact absurd h.symm hav
        · exact h
      have hav' : a < v := lt_of_le_of_ne (hall v hvt) hav
      rw [List.indexOf_cons_ne _ hav, List.countP_cons, ih ht hvt]
      simp [hav']

lemma minRankSorted_eq (v : ℚ) (l : List ℚ) (hv : v ∈ l) :
    minRankSorted v l = l.countP (fun w => decide (w < v)) + 1 := by
  unfold minRankSorted
  have hperm := List.perm_insertionSort (· ≤ ·) l
  rw [indexOf_sorted _ (List.sorted_insertionSort (· ≤ ·) l) v (hperm.mem_iff.mpr hv),
    hperm.countP_eq]

/-- C7: at every position of every series, the source's rolling
`rank(method='min', pct=True)` percentile over the trailing window of up
to 500 observations equals the minimum-rank-with-ties percentile as the
spec words it — one plus the position of the current value's first
occurrence in the ascending sort of the non-missing window values,
divided by the count of non-missing window values; both sides are missing
exactly when the current value is missing, and missing window entries are
excluded from numerator and denominator alike. -/
theorem rolling_percentile_min_rank (xs : List (Option ℚ)) (i : ℕ) :
    rolling_rank_pct 500 xs i = spec_rolling_rank_pct 500 xs i := by
  unfold rolling_rank_pct spec_rolling_rank_pct
  cases hx : xs.getD i none with
  | none => rfl
  | some v =>
    have hv : v ∈ validValues (trailingWindow 500 xs i) :=
      mem_validValues_window hx (by norm_num)
    simp only [Option.some.injEq]
    rw [countBelow_eq_countP, countValid_eq_length, minRankSorted_eq v _ hv]
    push_cast
    ring

end FundFinder
